import Mathlib

/-
  Verification of the charset-normalizer-rs encoding detector.

  Shallow embedding of the repository's source files:
    src/lib.rs    : the `from_bytes` probing state machine,
    src/utils.rs  : `decode` (chunk-boundary repair loop), `iana_name`,
                    `is_suspiciously_successive_range`, `is_multi_byte_encoding`,
                    `identify_sig_or_bom`, `is_cp_similar`, `any_specified_encoding`.

  The crate's external decoder (the `encoding` crate) and the repository
  modules that are not part of the provided sources (md.rs, cd.rs, consts.rs,
  entity.rs) are modelled as an explicit environment record `Env` of opaque
  computable functions, or, where a claim depends on their behaviour, as
  definitions modelled from the specification (marked in doc comments).

  Rust f32 ratio arithmetic is modelled over the rationals.  Byte sequences
  are lists of naturals, and Rust slice expressions `&bytes[a..b]` are
  rendered as `(bytes.take b).drop a`.
-/

/-! ### String helpers (Rust `str::contains` and `str::split_whitespace`) -/

/-- Search for `pat` as a contiguous sublist, at every suffix.
Models Rust `str::contains` over the character lists of the strings. -/
def subSearch (pat : List Char) : List Char → Bool
  | [] => pat.isEmpty
  | c :: t => pat.isPrefixOf (c :: t) || subSearch pat t

/-- Rust `str::contains` (substring containment). -/
def strContains (s pat : String) : Bool :=
  subSearch pat.toList s.toList

/-- Worker for `splitWords`: accumulates the current word (reversed). -/
def wordsGo : List Char → List Char → List String
  | [], acc => if acc.isEmpty then [] else [String.mk acc.reverse]
  | c :: t, acc =>
    if c.isWhitespace then
      (if acc.isEmpty then wordsGo t [] else String.mk acc.reverse :: wordsGo t [])
    else wordsGo t (c :: acc)

/-- Rust `str::split_whitespace`: whitespace-separated words, no empties. -/
def splitWords (s : String) : List String :=
  wordsGo s.toList []

/-- Rust `str::is_ascii` on a decoded string: every char below 0x80. -/
def stringIsAscii (s : String) : Bool :=
  s.toList.all (fun c => c.toNat < 128)

/-- Rust `(start..stop).step_by(step)`: offsets `start, start+step, ... < stop`. -/
def stepRange (start stop step : Nat) : List Nat :=
  (List.range (((stop - start) + step - 1) / step)).map (fun i => start + i * step)

/-! ### Data model -/

/-- The `encoding::DecoderTrap` type of the external crate: error-handling mode. -/
inductive DecoderTrap where
  | strict
  | replace
  | ignore
deriving DecidableEq

/-- The `encoding::CodecError` type of the external crate: position and cause of a decode error. -/
structure CodecError where
  upto : Int
  cause : String
deriving DecidableEq, Inhabited

/-- Modelled from the spec: `CharsetMatch` (entity.rs is not among the provided
sources).  Field order follows the `CharsetMatch::new` call sites in src/lib.rs:
payload bytes, IANA encoding name, mean mess ratio, has-BOM flag, coherence
(language, score) pairs, optional pre-decoded payload.  The alias set supports
the fingerprint merge of the spec's ResultSet (see `appendMatch`). -/
structure CharsetMatch where
  payloadBytes : List Nat
  encoding : String
  messRatio : ℚ
  bom : Bool
  coherence : List (String × ℚ)
  decodedPayload : Option String
  aliases : List String
deriving DecidableEq, Inhabited

/-- Modelled from the spec: `CharsetMatches` (entity.rs is not among the provided
sources) — an insertion-ordered collection of matches. -/
structure CharsetMatches where
  items : List CharsetMatch
deriving DecidableEq, Inhabited

/-- Modelled from the spec: `NormalizerSettings` (entity.rs is not among the
provided sources).  Fields and defaults follow spec section 3. -/
structure NormalizerSettings where
  steps : Nat
  chunkSize : Nat
  threshold : ℚ
  languageThreshold : ℚ
  preemptiveBehaviour : Bool
  enableFallback : Bool
  includeEncodings : List String
  excludeEncodings : List String
deriving DecidableEq, Inhabited

/-- Modelled from the spec: `NormalizerSettings::default()` — steps 5,
chunk_size 512, threshold 0.2, language_threshold 0.1, preemptive and fallback
enabled, empty include/exclude sets. -/
def defaultSettings : NormalizerSettings :=
  { steps := 5
    chunkSize := 512
    threshold := 1/5
    languageThreshold := 1/10
    preemptiveBehaviour := true
    enableFallback := true
    includeEncodings := []
    excludeEncodings := [] }

/-- The environment of external collaborators and repository modules that are
not part of the provided sources:
* `whatwgName`: `encoding::label::encoding_from_whatwg_label` composed with
  `whatwg_name().unwrap_or(name())` (external crate);
* `rawDecode`: one call of `decode_to` on a byte window — the decoded output
  written to the writer together with the optional `CodecError` (external
  crate raw decoder);
* `messRatio` (md.rs), `coherenceRatio` / `mergeCoherence` /
  `encLanguages` / `mbEncLanguages` (cd.rs): scoring functions consumed by the
  prober as opaque numeric inputs;
* `ianaList` (`IANA_SUPPORTED`), `similar` (`IANA_SUPPORTED_SIMILAR`),
  `encodingMarks` (`ENCODING_MARKS`), `tooBigSequence`, `maxProcessedBytes`
  (consts.rs): static data tables, spec section 6;
* `candidateLabels`: the capture list of `RE_POSSIBLE_ENCODING_INDICATION`
  applied to the ASCII-decoded scan window (consts.rs regex plus external
  ASCII decoding inside `any_specified_encoding`);
* `fingerprint`: the stable hash of a match used for deduplication (entity.rs,
  spec section 4.7). -/
structure Env where
  ianaList : List String
  whatwgName : String → Option String
  rawDecode : String → DecoderTrap → List Nat → String × Option CodecError
  messRatio : String → ℚ → ℚ
  coherenceRatio : String → ℚ → List String → Except String (List (String × ℚ))
  mergeCoherence : List (List (String × ℚ)) → List (String × ℚ)
  encLanguages : String → List String
  mbEncLanguages : String → List String
  similar : String → List String
  fingerprint : CharsetMatch → Nat
  encodingMarks : List (String × List Nat)
  candidateLabels : List Nat → List String
  tooBigSequence : Nat
  maxProcessedBytes : Nat

/-! ### utils.rs -/

/-- Modelled from the spec: `UNICODE_SECONDARY_RANGE_KEYWORD` (consts.rs is not
among the provided sources).  Spec section 4.2 rule 4 lists the keyword set as
"e.g. Supplement, Extended, Forms, Punctuation"; the claims settled over this
set do not depend on its exact membership. -/
def unicodeSecondaryRangeKeyword : List String :=
  ["Supplement", "Extended", "Forms", "Punctuation"]

/-- src/utils.rs `is_multi_byte_encoding`: membership in the fixed list. -/
def is_multi_byte_encoding (name : String) : Bool :=
  ["utf-8", "utf-16le", "utf-16be", "euc-jp", "euc-kr", "iso-2022-jp",
   "gbk", "gb18030", "hz", "big5", "shift_jis"].contains name

/-- src/utils.rs `should_strip_sig_or_bom`: unconditionally true. -/
def should_strip_sig_or_bom (_ianaEncoding : String) : Bool :=
  true

/-- src/utils.rs `identify_sig_or_bom`: the first entry of `ENCODING_MARKS`
whose signature is a prefix of the sequence (both components are returned
together in the source, hence a single optional pair here). -/
def identify_sig_or_bom (env : Env) (sequence : List Nat) : Option (String × List Nat) :=
  env.encodingMarks.find? (fun mark => mark.2.isPrefixOf sequence)

/-- src/utils.rs `iana_name`: first look the label up in `IANA_SUPPORTED`,
otherwise fall back to the WHATWG label resolver. -/
def iana_name (env : Env) (cpName : String) : Option String :=
  if env.ianaList.contains cpName then some cpName
  else env.whatwgName cpName

/-- src/utils.rs `is_cp_similar`: `IANA_SUPPORTED_SIMILAR` lookup (a missing
key is modelled as the empty similarity list). -/
def is_cp_similar (env : Env) (ianaNameA ianaNameB : String) : Bool :=
  (env.similar ianaNameA).contains ianaNameB

/-- First label of the capture list that resolves through `iana_name`
(the inner loop of src/utils.rs `any_specified_encoding`). -/
def firstIana (env : Env) : List String → Option String
  | [] => none
  | l :: t =>
    match iana_name env l with
    | some found => some found
    | none => firstIana env t

/-- src/utils.rs `any_specified_encoding`: scan the first `searchZone` bytes
for a declarative encoding label and resolve it. -/
def any_specified_encoding (env : Env) (sequence : List Nat) (searchZone : Nat) :
    Option String :=
  firstIana env (env.candidateLabels (sequence.take searchZone))

/-- The error message built at src/utils.rs line 363:
`format!("{} at index {}", err.cause, err.upto)`. -/
def codecErrMsg (e : CodecError) : String :=
  e.cause ++ " at index " ++ toString e.upto

/-- The retry loop of src/utils.rs `decode` (lines 337-361).  State: `b`/`e`
are `begin_offset`/`end_offset`, `ev` the `err` variable (initialised to
`upto 0, empty cause` and only updated right before the trim guard, exactly as
in the source).  The accumulated writer buffer is rendered by returning, on
success, the concatenation of the outputs of all attempts (the source writes
every attempt, including failed ones, into one buffer).  The source loop can
only re-enter in strict chunk multi-byte mode and then trims one byte per
iteration with a hard stop once `begin_offset > 3` or more than 3 bytes are
gone from the end, so at most 9 iterations can ever run when a trim happens
each time; `fuel = 10` therefore never runs out on those paths.  A cause
matching neither "invalid sequence" nor "incomplete sequence" never trims, on
which the source loops forever; the model returns the pending error instead,
and no claim touches that corner. -/
def decodeLoop (env : Env) (enc : String) (trap : DecoderTrap) (isChunk : Bool)
    (input : List Nat) : Nat → Nat → Nat → CodecError → Except String String
  | 0, _, _, ev => .error (codecErrMsg ev)
  | fuel + 1, b, e, ev =>
    let step := env.rawDecode enc trap ((input.take e).drop b)
    match step.2 with
    | none => .ok step.1
    | some err =>
      if trap ≠ DecoderTrap.strict then .error (codecErrMsg ev)
      else if ¬ isChunk ∨ is_multi_byte_encoding enc = false then .error (codecErrMsg ev)
      else
        let b' := if strContains err.cause "invalid sequence" then b + 1 else b
        let e' := if strContains err.cause "invalid sequence" then e
                  else if strContains err.cause "incomplete sequence" then e - 1
                  else e
        if e' - b' < 1 ∨ b' > 3 ∨ input.length - e' > 3 then .error (codecErrMsg err)
        else (decodeLoop env enc trap isChunk input fuel b' e' err).map (step.1 ++ ·)

/-- src/utils.rs `decode` (lines 316-368): resolve the encoder by WHATWG label,
run the retry loop over the full window, and discard the buffer when
`only_test` is set (the `DecodeTestResult` writer drops every write in that
mode, so a successful test decode always yields the empty string). -/
def decode (env : Env) (input : List Nat) (fromEncoding : String)
    (howProcessErrors : DecoderTrap) (onlyTest isChunk : Bool) :
    Except String String :=
  match env.whatwgName fromEncoding with
  | none => .error ("Encoding '" ++ fromEncoding ++ "' not found")
  | some _ =>
    match decodeLoop env fromEncoding howProcessErrors isChunk input 10 0
        input.length ⟨0, ""⟩ with
    | .ok buf => .ok (if onlyTest then "" else buf)
    | .error m => .error m

/-- src/utils.rs `is_suspiciously_successive_range` (lines 425-499), translated
rule for rule in source order. -/
def is_suspiciously_successive_range : Option String → Option String → Bool
  | none, _ => true
  | some _, none => true
  | some rangeA, some rangeB =>
    if rangeA = rangeB then false
    else if strContains rangeA "Latin" && strContains rangeB "Latin" then false
    else if strContains rangeA "Emoticons" || strContains rangeB "Emoticons" then false
    else if (strContains rangeA "Latin" || strContains rangeB "Latin")
        && (strContains rangeA "Combining" || strContains rangeB "Combining") then false
    else if (splitWords rangeA).any (fun w =>
        (splitWords rangeB).contains w && !(unicodeSecondaryRangeKeyword.contains w)) then
      false
    else
      let jpA := rangeA = "Hiragana" ∨ rangeA = "Katakana"
      let jpB := rangeB = "Hiragana" ∨ rangeB = "Katakana"
      let hasCjk := strContains rangeA "CJK" || strContains rangeB "CJK"
      if (jpA ∨ jpB) ∧ hasCjk then false
      else if jpA ∧ jpB then false
      else if (strContains rangeA "Hangul" || strContains rangeB "Hangul")
          && (hasCjk || rangeA == "Basic Latin" || rangeB == "Basic Latin") then false
      else if hasCjk && (strContains rangeA "Punctuation" || strContains rangeA "Forms"
          || strContains rangeB "Punctuation" || strContains rangeB "Forms") then false
      else true

/-! ### ResultSet operations (spec section 4.7; entity.rs is not provided) -/

/-- Modelled from the spec: `CharsetMatches::append` — if a match with an
equivalent fingerprint exists, merge the alias sets (the incoming encoding
name joins the aliases of the earlier match); otherwise append. -/
def appendMatch (env : Env) : List CharsetMatch → CharsetMatch → List CharsetMatch
  | [], m => [m]
  | p :: t, m =>
    if env.fingerprint p = env.fingerprint m then
      { p with aliases := p.aliases ++ m.encoding :: m.aliases } :: t
    else p :: appendMatch env t m

/-- Modelled from the spec: `CharsetMatches::get_by_encoding` — O(n) lookup by
canonical or alias name. -/
def getByEncoding (enc : String) : List CharsetMatch → Option CharsetMatch
  | [] => none
  | p :: t =>
    if p.encoding = enc ∨ enc ∈ p.aliases then some p else getByEncoding enc t

/-! ### lib.rs `from_bytes` -/

/-- State of the chunk loop of src/lib.rs (lines 268-328): `early` is
`early_stop_count`, `lazyHard` is `lazy_str_hard_failure`, `ratios` is
`md_ratios`, `chunks` is `md_chunks`. -/
structure ChunkSt where
  early : Nat
  lazyHard : Bool
  ratios : List ℚ
  chunks : List String
deriving DecidableEq, Inhabited

/-- Initial chunk-loop state. -/
def initChunkSt : ChunkSt :=
  { early := 0, lazyHard := false, ratios := [], chunks := [] }

/-- Per-call context of the probing loop, computed before the loop starts in
src/lib.rs: the input, its length, the too-large flag, the BOM/SIG detection
result, the declaratively specified encoding (empty string when absent, as in
the source) and the prioritized list. -/
structure ProbeCtx where
  bytes : List Nat
  bytesLength : Nat
  isTooLarge : Bool
  sigEncoding : Option String
  sigBytes : List Nat
  specifiedEncoding : String
  prioritized : List String
deriving DecidableEq, Inhabited

/-- Mutable state threaded through the probing loop of src/lib.rs (lines
158-164): hard/soft failure lists, the three fallback slots and the results. -/
structure PState where
  hard : List String
  soft : List String
  fbAscii : Option CharsetMatch
  fbU8 : Option CharsetMatch
  fbSpecified : Option CharsetMatch
  results : List CharsetMatch
deriving DecidableEq, Inhabited

/-- Initial probing state. -/
def initPState : PState :=
  { hard := [], soft := [], fbAscii := none, fbU8 := none, fbSpecified := none,
    results := [] }

/-- Outcome of one iteration of the per-encoding loop: continue with an updated
state, or return a final result set from inside the loop (the early exit at
src/lib.rs lines 437-448). -/
inductive StepResult where
  | cont (st : PState)
  | finish (r : CharsetMatches)
deriving DecidableEq, Inhabited

/-- The chunk loop of src/lib.rs (lines 268-328).  Chars processing slices the
decoded payload by code points; bytes processing decodes each byte chunk
(prepending the preserved SIG when it was not stripped).  A decode error — or,
for "ascii", a chunk that is not pure ASCII — forces `early_stop_count` to the
give-up bound, sets `lazy_str_hard_failure` and breaks.  After a scored chunk
the loop breaks once `early_stop_count` reaches the bound or a non-stripped
BOM is in play. -/
def runChunks (env : Env) (s : NormalizerSettings) (ctx : ProbeCtx) (enc : String)
    (payload : Option String) (bomOrSig strip : Bool) (maxGaveUp seqLen : Nat) :
    List Nat → ChunkSt → ChunkSt
  | [], st => st
  | off :: rest, st =>
    let decodedChunkResult : Except String String :=
      match payload with
      | some p => .ok (String.mk ((p.toList.drop off).take s.chunkSize))
      | none =>
        let offsetEnd := min (off + s.chunkSize) seqLen
        let cutBytes := (if bomOrSig && !strip then ctx.sigBytes else [])
          ++ ((ctx.bytes.take offsetEnd).drop off)
        decode env cutBytes enc DecoderTrap.strict false false
    match decodedChunkResult with
    | .error _ => { st with early := maxGaveUp, lazyHard := true }
    | .ok chunk =>
      if enc == "ascii" && !stringIsAscii chunk then
        { st with early := maxGaveUp, lazyHard := true }
      else
        let r := env.messRatio chunk s.threshold
        let st' : ChunkSt :=
          { st with
            chunks := st.chunks ++ [chunk]
            ratios := st.ratios ++ [r]
            early := st.early + (if s.threshold ≤ r then 1 else 0) }
        if maxGaveUp ≤ st'.early ∨ (bomOrSig && !strip) = true then st'
        else runChunks env s ctx enc payload bomOrSig strip maxGaveUp seqLen rest st'

/-- The tail verification of src/lib.rs (lines 330-352): for a large input and
a single-byte decoder that has not hard-failed lazily, decode the remainder
beyond `MAX_PROCESSED_BYTES`; a decode error — or a non-ASCII remainder for
"ascii" — promotes the encoding to a hard failure. -/
def tailFails (env : Env) (ctx : ProbeCtx) (enc : String) (multibyte lazyHard : Bool) :
    Bool :=
  if !lazyHard && ctx.isTooLarge && !multibyte then
    match decode env (ctx.bytes.drop env.maxProcessedBytes) enc
        DecoderTrap.strict false false with
    | .error _ => true
    | .ok txt => enc == "ascii" && !stringIsAscii txt
  else false

/-- The soft-failure branch of src/lib.rs (lines 362-393): record the encoding
in `tested_but_soft_failure`; when fallback is enabled, no lazy hard failure
occurred and the encoding is prioritized, store a fallback match (mess ratio
pinned to the threshold) in the slot selected by the encoding: the specified
slot, the ascii slot, or the utf-8 slot. -/
def softFailRecord (s : NormalizerSettings) (ctx : ProbeCtx)
    (st : PState) (enc : String) (lazyHard : Bool) (payload : Option String) :
    PState :=
  let st1 := { st with soft := st.soft ++ [enc] }
  if s.enableFallback && !lazyHard && ctx.prioritized.contains enc then
    let entry : Option CharsetMatch :=
      some ⟨ctx.bytes, enc, s.threshold, false, [], payload, []⟩
    if enc == ctx.specifiedEncoding then { st1 with fbSpecified := entry }
    else if enc == "ascii" then { st1 with fbAscii := entry }
    else { st1 with fbU8 := entry }
  else st1

/-- The coherence phase of src/lib.rs (lines 404-415): run `coherence_ratio`
on every scored chunk, keeping the successful results. -/
def collectCd (env : Env) (s : NormalizerSettings) (targetLanguages : List String)
    (chunks : List String) : List (List (String × ℚ)) :=
  chunks.foldl (fun acc chunk =>
    match env.coherenceRatio chunk s.languageThreshold targetLanguages with
    | .ok cm => acc ++ [cm]
    | .error _ => acc) []

/-- The accept phase of src/lib.rs (lines 427-448): append the new match to the
results and early-exit with a singleton result set when the mean mess ratio is
below 0.1 on a prioritized encoding, or the encoding is the SIG encoding
(`sig_encoding.clone().unwrap_or(String::new())` in the source).  The
`.unwrap()` on `get_by_encoding` is rendered with `Option.get!`; the lookup
always succeeds right after the append (`getByEncoding_appendMatch_self`). -/
def acceptStep (env : Env) (ctx : ProbeCtx) (st : PState) (enc : String)
    (meanMessRatio : ℚ) (bomOrSig : Bool) (merged : List (String × ℚ))
    (payload : Option String) : StepResult :=
  let results' := appendMatch env st.results
    ⟨ctx.bytes, enc, meanMessRatio, bomOrSig, merged, payload, []⟩
  if (meanMessRatio < 1/10 ∧ ctx.prioritized.contains enc = true)
      ∨ enc = ctx.sigEncoding.getD "" then
    .finish ⟨[(getByEncoding enc results').get!]⟩
  else .cont { st with results := results' }

/-- One iteration of `iana_encodings_loop` (src/lib.rs lines 167-449):
include/exclude filtering, the UTF-16 BOM guard, the strict fast pre-check,
the similarity skip, the chunk loop, the tail verification, the mean-mess
aggregate and the soft-failure or accept branch. -/
def probeOne (env : Env) (s : NormalizerSettings) (ctx : ProbeCtx) (st : PState)
    (enc : String) : StepResult :=
  if s.includeEncodings ≠ [] ∧ ¬ s.includeEncodings.contains enc then .cont st
  else if s.excludeEncodings.contains enc then .cont st
  else
    let bomOrSig : Bool := ctx.sigEncoding == some enc
    let strip : Bool := bomOrSig && should_strip_sig_or_bom enc
    let multibyte : Bool := is_multi_byte_encoding enc
    if bomOrSig = false ∧ (enc = "utf-16le" ∨ enc = "utf-16be") then .cont st
    else
      let sliceStart := if strip then ctx.sigBytes.length else 0
      let sliceEnd := if ctx.isTooLarge && !multibyte then env.maxProcessedBytes
                      else ctx.bytesLength
      match decode env ((ctx.bytes.take sliceEnd).drop sliceStart) enc
          DecoderTrap.strict (ctx.isTooLarge && !multibyte) false with
      | .error _ => .cont { st with hard := st.hard ++ [enc] }
      | .ok preDecoded =>
        let payload : Option String :=
          if !ctx.isTooLarge || multibyte then some preDecoded else none
        if st.soft.any (fun softFailed => is_cp_similar env enc softFailed) then
          .cont st
        else
          let maxGaveUp := max 2 (s.steps / 4)
          let targetLanguages :=
            if multibyte then env.mbEncLanguages enc else env.encLanguages enc
          let seqLen := match payload with
            | some p => p.length
            | none => ctx.bytesLength
          let start := if bomOrSig && payload.isNone then ctx.sigBytes.length else 0
          let offsets := stepRange start seqLen (max 1 (seqLen / s.steps))
          let ch := runChunks env s ctx enc payload bomOrSig strip maxGaveUp seqLen
            offsets initChunkSt
          if tailFails env ctx enc multibyte ch.lazyHard then
            .cont { st with hard := st.hard ++ [enc] }
          else
            let meanMessRatio : ℚ :=
              if ch.ratios = [] then 0 else ch.ratios.sum / (ch.ratios.length : ℚ)
            if s.threshold ≤ meanMessRatio ∨ maxGaveUp ≤ ch.early then
              .cont (softFailRecord s ctx st enc ch.lazyHard payload)
            else
              let merged := env.mergeCoherence
                (if enc ≠ "ascii" then collectCd env s targetLanguages ch.chunks
                 else [])
              acceptStep env ctx st enc meanMessRatio bomOrSig merged payload

/-- The per-encoding loop: fold `probeOne` over the ordered encoding list,
stopping at an early exit. -/
def probeLoop (env : Env) (s : NormalizerSettings) (ctx : ProbeCtx) :
    PState → List String → PState ⊕ CharsetMatches
  | st, [] => .inl st
  | st, enc :: rest =>
    match probeOne env s ctx st enc with
    | .cont st' => probeLoop env s ctx st' rest
    | .finish r => .inr r

/-- The priority reordering of src/lib.rs (lines 150-156): for each prioritized
encoding, in reverse order, move its first occurrence to the front of the
IANA list. -/
def moveToFront (l : List String) (x : String) : List String :=
  if l.contains x then x :: l.erase x else l

/-- Ordered probe list: the IANA-supported list with prioritized entries moved
to the front. -/
def reorderIana (iana prioritized : List String) : List String :=
  prioritized.reverse.foldl moveToFront iana

/-- The prioritized-encodings list of src/lib.rs (lines 117-147): the
declaratively specified encoding (under preemptive behaviour), then the
BOM/SIG encoding, then "ascii" and "utf-8". -/
def buildPrioritized (env : Env) (bytes : List Nat) (s : NormalizerSettings) :
    List String :=
  (match (if s.preemptiveBehaviour then any_specified_encoding env bytes 4096
          else none) with
   | some e => [e]
   | none => [])
  ++ (match identify_sig_or_bom env bytes with
      | some sig => [sig.1]
      | none => [])
  ++ ["ascii", "utf-8"]

/-- The loop context of src/lib.rs, assembled from the pre-loop phase (lines
100-156) for the already length-adjusted settings. -/
def buildCtx (env : Env) (bytes : List Nat) (s : NormalizerSettings) : ProbeCtx :=
  let specified := if s.preemptiveBehaviour then any_specified_encoding env bytes 4096
                   else none
  let sig := identify_sig_or_bom env bytes
  { bytes := bytes
    bytesLength := bytes.length
    isTooLarge := bytes.length > env.tooBigSequence
    sigEncoding := sig.map Prod.fst
    sigBytes := (sig.map Prod.snd).getD []
    specifiedEncoding := specified.getD ""
    prioritized := buildPrioritized env bytes s }

/-- The length adjustment of src/lib.rs (lines 83-98): small inputs collapse to
a single whole-input chunk; otherwise the chunk size is clamped so that
`steps` chunks fit. -/
def adjustSettings (bytes : List Nat) (s : NormalizerSettings) : NormalizerSettings :=
  let s1 := if bytes.length ≤ s.chunkSize * s.steps then
              { s with steps := 1, chunkSize := bytes.length }
            else s
  if s1.steps > 1 ∧ bytes.length / s1.steps < s1.chunkSize then
    { s1 with chunkSize := bytes.length / s1.steps }
  else s1

/-- The probing phase of `from_bytes` on non-empty input: adjust the settings,
build the context and run the per-encoding loop over the reordered IANA list,
returning either the final loop state or an early-exit result set. -/
def detectState (env : Env) (bytes : List Nat) (s : NormalizerSettings) :
    PState ⊕ CharsetMatches :=
  let s2 := adjustSettings bytes s
  let ctx := buildCtx env bytes s2
  probeLoop env s2 ctx initPState (reorderIana env.ianaList ctx.prioritized)

/-- The fallback selection of src/lib.rs (lines 453-465): the specified hint
first; otherwise utf-8 when it is distinct from ascii (no ascii fallback, or
differing fingerprints); otherwise ascii. -/
def selectFallback (env : Env) (st : PState) : Option CharsetMatch :=
  match st.fbSpecified with
  | some m => some m
  | none =>
    match st.fbU8, st.fbAscii with
    | some u, none => some u
    | some u, some a =>
      if env.fingerprint u ≠ env.fingerprint a then some u else some a
    | none, some a => some a
    | none, none => none

/-- The finalization of src/lib.rs (lines 451-486): when the loop produced no
result, append the selected fallback (if any) to the empty result set. -/
def finalize (env : Env) (st : PState) : CharsetMatches :=
  if st.results = [] then
    match selectFallback env st with
    | some fb => ⟨appendMatch env st.results fb⟩
    | none => ⟨st.results⟩
  else ⟨st.results⟩

/-- The body of `from_bytes` after settings validation (src/lib.rs lines
69-487): the empty-input special case, then the probing loop and the
finalization.  Total: no error can arise here. -/
def mainDetect (env : Env) (bytes : List Nat) (s : NormalizerSettings) :
    CharsetMatches :=
  if bytes.length = 0 then
    ⟨[⟨bytes, "utf-8", 0, false, [], none, []⟩]⟩
  else
    match detectState env bytes s with
    | .inr r => r
    | .inl st => finalize env st

/-- The failure mode of `from_bytes`: the `.unwrap()` panic raised while
normalizing `include_encodings`/`exclude_encodings` through `iana_name`
(src/lib.rs lines 44-67), modelled as an error value. -/
inductive DetectError where
  | unknownEncoding (label : String) : DetectError
deriving DecidableEq, Inhabited

/-- The `iter().map(|e| iana_name(e).unwrap()).collect()` pass over a settings list: the
resolved list, or the panic on the first unresolvable alias. -/
def resolveAll (env : Env) : List String → Except DetectError (List String)
  | [] => .ok []
  | a :: t =>
    match iana_name env a with
    | some canonical => (resolveAll env t).map (canonical :: ·)
    | none => .error (DetectError.unknownEncoding a)

/-- src/lib.rs `from_bytes` (lines 40-487): default the settings, normalize the
include/exclude sets through `iana_name` (panicking — here erroring — on an
unresolvable alias), then run the total detection body. -/
def from_bytes (env : Env) (bytes : List Nat)
    (settings : Option NormalizerSettings) : Except DetectError CharsetMatches := do
  let s := settings.getD defaultSettings
  let inc ← if s.includeEncodings.isEmpty then pure s.includeEncodings
            else resolveAll env s.includeEncodings
  let exc ← if s.excludeEncodings.isEmpty then pure s.excludeEncodings
            else resolveAll env s.excludeEncodings
  pure (mainDetect env bytes { s with includeEncodings := inc, excludeEncodings := exc })

/-! ### Concrete environments for witnesses and counterexamples -/

/-- A small fully computable environment: two supported encodings, a decoder
that maps every byte to its ASCII residue and never errors, zero mess
everywhere, no similarity classes, no BOM table, no declarative marks. -/
def testEnv : Env :=
  { ianaList := ["ascii", "utf-8"]
    whatwgName := fun n =>
      if n = "ascii" ∨ n = "utf-8" ∨ n = "windows-1252" then some n else none
    rawDecode := fun _ _ bytes =>
      (String.mk (bytes.map (fun b => Char.ofNat (b % 128))), none)
    messRatio := fun _ _ => 0
    coherenceRatio := fun _ _ _ => .ok []
    mergeCoherence := fun _ => []
    encLanguages := fun _ => []
    mbEncLanguages := fun _ => []
    similar := fun _ => []
    fingerprint := fun m => m.encoding.length
    encodingMarks := []
    candidateLabels := fun _ => []
    tooBigSequence := 1000000
    maxProcessedBytes := 500000 }

/-- Environment for the C6 counterexample: only "ascii" is probed, and the
decoder decodes every byte to the identical code point, so byte 233 decodes to
a non-ASCII character while the "ascii" probe itself succeeds (in the crate the
"ascii" label maps to a windows-1252 decoder, which is why the source re-checks
`is_ascii` on each chunk). -/
def envLatin : Env :=
  { testEnv with
    ianaList := ["ascii"]
    rawDecode := fun _ _ bytes =>
      (String.mk (bytes.map (fun b => Char.ofNat (b % 1114112))), none) }

/-- Environment for the C4 counterexample: the probe list contains "utf-32le",
which the external decoder does not know (`encoding_from_whatwg_label` yields
none for it), and no BOM table entry matches. -/
def envUtf32 : Env :=
  { testEnv with ianaList := ["utf-32le"] }

/-- Environment exercising the chunk-boundary repair: windows longer than two
bytes fail with an "invalid sequence" error after writing "x"; short windows
decode to their identity characters. -/
def envRepair : Env :=
  { testEnv with
    whatwgName := fun n => if n = "utf-8" then some n else none
    rawDecode := fun _ _ bytes =>
      if bytes.length ≤ 2 then (String.mk (bytes.map (fun b => Char.ofNat b)), none)
      else ("x", some ⟨1, "invalid sequence"⟩) }

/-! ### Claim C10 -/

/-- C10: for every byte slice, encoding name and trap mode, `decode` with
`only_test = true` returns `Ok ""` whenever decoding succeeds, and its
success-versus-error outcome (including the error message) is identical to the
same call with `only_test = false`. -/
theorem c10_decode_only_test (env : Env) (input : List Nat) (enc : String)
    (trap : DecoderTrap) (isChunk : Bool) :
    decode env input enc trap true isChunk
      = (decode env input enc trap false isChunk).map (fun _ => "") := by
  simp only [decode]
  cases env.whatwgName enc with
  | none => rfl
  | some _ =>
    cases decodeLoop env enc trap isChunk input 10 0 input.length ⟨0, ""⟩ with
    | ok buf => rfl
    | error m => rfl

/-! ### Claim C7 -/

/-- C7: `decode` performs chunk-boundary repair only with `is_chunk = true`, a
multi-byte encoding and the strict trap.  Part 1: in every other configuration
the result is that of a single decoder call on the untrimmed input — no
trimming retry is ever attempted (the error message is built from the
still-initial `err` variable of the source, hence `" at index 0"`).
Parts 2 and 3: in repair mode, an error whose cause contains
"invalid sequence" drops one byte from the start of the window and retries,
and one containing "incomplete sequence" (and not "invalid sequence") drops
one byte from the end and retries.  Parts 4 and 5: the retry is abandoned,
returning the error, once the trimmed window is empty or more than 3 bytes
have been trimmed from either side. -/
theorem c7_decode_chunk_repair :
    (∀ (env : Env) (input : List Nat) (enc : String) (trap : DecoderTrap)
        (ot ic : Bool),
      (trap ≠ DecoderTrap.strict ∨ ic = false ∨ is_multi_byte_encoding enc = false) →
      decode env input enc trap ot ic =
        match env.whatwgName enc with
        | none => .error ("Encoding '" ++ enc ++ "' not found")
        | some _ =>
          match env.rawDecode enc trap input with
          | (out, none) => .ok (if ot then "" else out)
          | (_, some _) => .error " at index 0")
    ∧ (∀ (env : Env) (enc : String) (input : List Nat) (fuel b e : Nat)
        (ev err : CodecError) (out : String),
      is_multi_byte_encoding enc = true →
      env.rawDecode enc DecoderTrap.strict ((input.take e).drop b) = (out, some err) →
      strContains err.cause "invalid sequence" = true →
      ¬ (e - (b + 1) < 1 ∨ b + 1 > 3 ∨ input.length - e > 3) →
      decodeLoop env enc DecoderTrap.strict true input (fuel + 1) b e ev
        = (decodeLoop env enc DecoderTrap.strict true input fuel (b + 1) e err).map
            (out ++ ·))
    ∧ (∀ (env : Env) (enc : String) (input : List Nat) (fuel b e : Nat)
        (ev err : CodecError) (out : String),
      is_multi_byte_encoding enc = true →
      env.rawDecode enc DecoderTrap.strict ((input.take e).drop b) = (out, some err) →
      strContains err.cause "invalid sequence" = false →
      strContains err.cause "incomplete sequence" = true →
      ¬ ((e - 1) - b < 1 ∨ b > 3 ∨ input.length - (e - 1) > 3) →
      decodeLoop env enc DecoderTrap.strict true input (fuel + 1) b e ev
        = (decodeLoop env enc DecoderTrap.strict true input fuel b (e - 1) err).map
            (out ++ ·))
    ∧ (∀ (env : Env) (enc : String) (input : List Nat) (fuel b e : Nat)
        (ev err : CodecError) (out : String),
      is_multi_byte_encoding enc = true →
      env.rawDecode enc DecoderTrap.strict ((input.take e).drop b) = (out, some err) →
      strContains err.cause "invalid sequence" = true →
      (e - (b + 1) < 1 ∨ b + 1 > 3 ∨ input.length - e > 3) →
      decodeLoop env enc DecoderTrap.strict true input (fuel + 1) b e ev
        = .error (codecErrMsg err))
    ∧ (∀ (env : Env) (enc : String) (input : List Nat) (fuel b e : Nat)
        (ev err : CodecError) (out : String),
      is_multi_byte_encoding enc = true →
      env.rawDecode enc DecoderTrap.strict ((input.take e).drop b) = (out, some err) →
      strContains err.cause "invalid sequence" = false →
      strContains err.cause "incomplete sequence" = true →
      ((e - 1) - b < 1 ∨ b > 3 ∨ input.length - (e - 1) > 3) →
      decodeLoop env enc DecoderTrap.strict true input (fuel + 1) b e ev
        = .error (codecErrMsg err)) := by
  refine ⟨?_, ?_, ?_, ?_, ?_⟩
  · intro env input enc trap ot ic hcfg
    simp only [decode]
    cases hw : env.whatwgName enc with
    | none => rfl
    | some _ =>
      have hloop : decodeLoop env enc trap ic input 10 0 input.length ⟨0, ""⟩
          = match env.rawDecode enc trap input with
            | (out, none) => .ok out
            | (_, some _) => .error (codecErrMsg ⟨0, ""⟩) := by
        simp only [decodeLoop, List.take_length, List.drop_zero]
        rcases hr : env.rawDecode enc trap input with ⟨out, res⟩
        cases res with
        | none => rfl
        | some err =>
          rcases hcfg with h | h | h
          · simp [h]
          · subst h
            simp
          · simp [h]
      rw [hloop]
      rcases hr : env.rawDecode enc trap input with ⟨out, res⟩
      cases res with
      | none => rfl
      | some err => rfl
  · intro env enc input fuel b e ev err out hmb hr hinv hguard
    rw [decodeLoop]
    simp [hr, hmb, hinv, hguard]
    intro h
    exfalso
    omega
  · intro env enc input fuel b e ev err out hmb hr hinv hinc hguard
    rw [decodeLoop]
    simp [hr, hmb, hinv, hinc, hguard]
    intro h
    exfalso
    omega
  · intro env enc input fuel b e ev err out hmb hr hinv hguard
    rw [decodeLoop]
    simp [hr, hmb, hinv, hguard]
    intro h1 h2 h3
    exfalso
    omega
  · intro env enc input fuel b e ev err out hmb hr hinv hinc hguard
    rw [decodeLoop]
    simp [hr, hmb, hinv, hinc, hguard]
    intro h1 h2 h3
    exfalso
    omega

/-- Witness for C7: with a non-strict trap no repair happens (part 1), and in
repair mode an "invalid sequence" error on the 4-byte window drops the first
byte and retries (part 2). -/
theorem c7_witness :
    decode envRepair [1, 2, 3, 4] "utf-8" DecoderTrap.replace false true
      = Except.error " at index 0"
    ∧ decodeLoop envRepair "utf-8" DecoderTrap.strict true [1, 2, 3, 4] 10 0 4 ⟨0, ""⟩
      = (decodeLoop envRepair "utf-8" DecoderTrap.strict true [1, 2, 3, 4] 9 1 4
          ⟨1, "invalid sequence"⟩).map (fun rest => "x" ++ rest) := by
  constructor
  · rw [c7_decode_chunk_repair.1 envRepair [1, 2, 3, 4] "utf-8" DecoderTrap.replace
      false true (Or.inl (by decide))]
    rfl
  · exact c7_decode_chunk_repair.2.1 envRepair "utf-8" [1, 2, 3, 4] 9 0 4 ⟨0, ""⟩
      ⟨1, "invalid sequence"⟩ "x" (by decide) (by decide) (by decide) (by decide)

/-! ### Claims C1 and C2: settings validation and the empty-input case -/

/-- The normalized settings produced by a successful validation: every
include/exclude entry replaced by its canonical IANA name. -/
def normalizeSettings (env : Env) (s : NormalizerSettings) : NormalizerSettings :=
  { s with
    includeEncodings := s.includeEncodings.map (fun a => (iana_name env a).getD a)
    excludeEncodings := s.excludeEncodings.map (fun a => (iana_name env a).getD a) }

/-- When every label resolves, `resolveAll` returns the canonicalized list. -/
theorem resolveAll_ok (env : Env) (l : List String)
    (h : ∀ a ∈ l, (iana_name env a).isSome) :
    resolveAll env l = .ok (l.map (fun a => (iana_name env a).getD a)) := by
  induction l with
  | nil => rfl
  | cons a t ih =>
    obtain ⟨c, hc⟩ := Option.isSome_iff_exists.mp (h a (by simp))
    have ht := ih (fun x hx => h x (by simp [hx]))
    simp [resolveAll, hc, ht, Except.map]

/-- When some label does not resolve, `resolveAll` errors. -/
theorem resolveAll_err (env : Env) (l : List String)
    (h : ∃ a ∈ l, iana_name env a = none) :
    ∃ bad, resolveAll env l = .error (DetectError.unknownEncoding bad)
      ∧ iana_name env bad = none := by
  induction l with
  | nil => simp at h
  | cons a t ih =>
    by_cases ha : iana_name env a = none
    · exact ⟨a, by simp [resolveAll, ha], ha⟩
    · obtain ⟨c, hc⟩ := Option.ne_none_iff_exists'.mp ha
      obtain ⟨x, hx, hxn⟩ := h
      rcases List.mem_cons.mp hx with hx | hx
      · exact absurd (hx ▸ hxn) ha
      · obtain ⟨bad, hbad, hbadn⟩ := ih ⟨x, hx, hxn⟩
        exact ⟨bad, by simp [resolveAll, hc, hbad, Except.map], hbadn⟩

/-- A list containing an element is not empty (in the `Bool` sense). -/
theorem isEmpty_false_of_mem {α : Type} {l : List α} {x : α} (hx : x ∈ l) :
    l.isEmpty = false := by
  cases l with
  | nil => simp at hx
  | cons a t => rfl

/-- Successful validation: `from_bytes` reduces to the total detection body on
the normalized settings. -/
theorem from_bytes_ok_of_valid (env : Env) (bytes : List Nat)
    (settings : Option NormalizerSettings)
    (h : ∀ a ∈ (settings.getD defaultSettings).includeEncodings
        ++ (settings.getD defaultSettings).excludeEncodings,
        (iana_name env a).isSome) :
    from_bytes env bytes settings
      = .ok (mainDetect env bytes
          (normalizeSettings env (settings.getD defaultSettings))) := by
  have hinc : ∀ a ∈ (settings.getD defaultSettings).includeEncodings,
      (iana_name env a).isSome := fun a ha => h a (by simp [ha])
  have hexc : ∀ a ∈ (settings.getD defaultSettings).excludeEncodings,
      (iana_name env a).isSome := fun a ha => h a (by simp [ha])
  simp only [from_bytes, bind, Except.bind, pure, Except.pure]
  by_cases hie : (settings.getD defaultSettings).includeEncodings.isEmpty
  · by_cases hee : (settings.getD defaultSettings).excludeEncodings.isEmpty
    · simp_all [normalizeSettings, List.isEmpty_iff]
    · simp_all [resolveAll_ok env _ hexc, normalizeSettings, List.isEmpty_iff]
  · by_cases hee : (settings.getD defaultSettings).excludeEncodings.isEmpty
    · simp_all [resolveAll_ok env _ hinc, normalizeSettings, List.isEmpty_iff]
    · simp_all [resolveAll_ok env _ hinc, resolveAll_ok env _ hexc,
        normalizeSettings, List.isEmpty_iff]

/-- C1: `from_bytes` never fails on any byte input once the caller-provided
include/exclude sets resolve: it returns the (total) detection body applied to
the normalized settings.  An unresolvable alias is rejected during settings
validation, before any probing: the call errors, and the resulting value is
independent of the input bytes.  Since the detection body `mainDetect` is a
total function into `CharsetMatches`, no unknown-encoding error can originate
inside the probing loop. -/
theorem c1_validation_fail_fast (env : Env) (bytes : List Nat)
    (settings : Option NormalizerSettings) :
    ((∀ a ∈ (settings.getD defaultSettings).includeEncodings
        ++ (settings.getD defaultSettings).excludeEncodings,
        (iana_name env a).isSome) →
      from_bytes env bytes settings
        = .ok (mainDetect env bytes
            (normalizeSettings env (settings.getD defaultSettings))))
    ∧ ((∃ a ∈ (settings.getD defaultSettings).includeEncodings
        ++ (settings.getD defaultSettings).excludeEncodings,
        iana_name env a = none) →
      (from_bytes env bytes settings).isOk = false
      ∧ ∀ bytes', from_bytes env bytes settings = from_bytes env bytes' settings) := by
  constructor
  · intro h
    exact from_bytes_ok_of_valid env bytes settings h
  · intro h
    by_cases hii : ∃ x ∈ (settings.getD defaultSettings).includeEncodings,
        iana_name env x = none
    · obtain ⟨bad, hbad, _⟩ := resolveAll_err env _ hii
      obtain ⟨x0, hx0, _⟩ := hii
      have hne := isEmpty_false_of_mem hx0
      constructor
      · simp [from_bytes, bind, Except.bind, hne, hbad, Except.isOk, Except.toBool]
      · intro bytes'
        simp [from_bytes, bind, Except.bind, hne, hbad]
    · have hai : ∀ x ∈ (settings.getD defaultSettings).includeEncodings,
          (iana_name env x).isSome := by
        intro x hx
        rcases ho : iana_name env x with _ | c
        · exact absurd ⟨x, hx, ho⟩ hii
        · rfl
      have hae : ∃ x ∈ (settings.getD defaultSettings).excludeEncodings,
          iana_name env x = none := by
        obtain ⟨a, ha, han⟩ := h
        rw [List.mem_append] at ha
        rcases ha with ha | ha
        · exact absurd ⟨a, ha, han⟩ hii
        · exact ⟨a, ha, han⟩
      obtain ⟨bad, hbad, _⟩ := resolveAll_err env _ hae
      obtain ⟨x0, hx0, _⟩ := hae
      have hnee := isEmpty_false_of_mem hx0
      have hrinc := resolveAll_ok env _ hai
      constructor
      · by_cases hie : (settings.getD defaultSettings).includeEncodings.isEmpty
        · simp [from_bytes, bind, Except.bind, pure, Except.pure, hie, hnee, hbad,
            Except.isOk, Except.toBool]
        · simp [from_bytes, bind, Except.bind, pure, Except.pure, hie, hnee, hbad,
            hrinc, Except.isOk, Except.toBool]
      · intro bytes'
        by_cases hie : (settings.getD defaultSettings).includeEncodings.isEmpty
        · simp [from_bytes, bind, Except.bind, pure, Except.pure, hie, hnee, hbad]
        · simp [from_bytes, bind, Except.bind, pure, Except.pure, hie, hnee, hbad,
            hrinc]

/-- Witness for C1: with the default settings the empty include/exclude sets
trivially resolve, so detection on a concrete input succeeds; and a bogus
include alias makes the concrete call fail, independently of the bytes. -/
theorem c1_witness :
    from_bytes testEnv [104, 105] none
      = .ok (mainDetect testEnv [104, 105] (normalizeSettings testEnv defaultSettings))
    ∧ (from_bytes testEnv [104]
        (some { defaultSettings with includeEncodings := ["bogus"] })).isOk = false := by
  constructor
  · exact (c1_validation_fail_fast testEnv [104, 105] none).1 (by simp [defaultSettings])
  · exact ((c1_validation_fail_fast testEnv [104]
      (some { defaultSettings with includeEncodings := ["bogus"] })).2
      ⟨"bogus", by simp, by decide⟩).1

/-- C2: `from_bytes` on the empty byte sequence returns exactly one match,
with encoding "utf-8", mess ratio 0 and no BOM (the empty-input special case
of src/lib.rs lines 70-81), for any settings whose include/exclude aliases
resolve. -/
theorem c2_empty_input (env : Env) (settings : Option NormalizerSettings)
    (hvalid : ∀ a ∈ (settings.getD defaultSettings).includeEncodings
        ++ (settings.getD defaultSettings).excludeEncodings,
        (iana_name env a).isSome) :
    ∃ m : CharsetMatch, from_bytes env [] settings = .ok ⟨[m]⟩
      ∧ m.encoding = "utf-8" ∧ m.messRatio = 0 ∧ m.bom = false := by
  refine ⟨⟨[], "utf-8", 0, false, [], none, []⟩, ?_, rfl, rfl, rfl⟩
  rw [from_bytes_ok_of_valid env [] settings hvalid]
  rfl

/-- Witness for C2: the concrete empty-input call with default settings. -/
theorem c2_witness :
    ∃ m : CharsetMatch, from_bytes testEnv [] none = .ok ⟨[m]⟩
      ∧ m.encoding = "utf-8" ∧ m.messRatio = 0 ∧ m.bom = false :=
  c2_empty_input testEnv none (by simp [defaultSettings])

/-! ### Claims C8 and C9: suspicious range succession -/

/-- The two range names share a word outside the secondary keyword set
(rule 4 of `is_suspiciously_successive_range`, in propositional form). -/
def commonWordOutsideSecondary (ra rb : String) : Prop :=
  ∃ w, w ∈ splitWords ra ∧ w ∈ splitWords rb ∧ w ∉ unicodeSecondaryRangeKeyword

/-- Symmetry of `commonWordOutsideSecondary`. -/
theorem commonWordOutsideSecondary_comm (ra rb : String) :
    commonWordOutsideSecondary ra rb ↔ commonWordOutsideSecondary rb ra := by
  constructor <;> rintro ⟨w, h1, h2, h3⟩ <;> exact ⟨w, h2, h1, h3⟩

/-- The flat (order-free) disjunction of all the conditions under which
`is_suspiciously_successive_range` answers `false` on two present range names.
Every rule of the source after the `None` check concludes `false`, so the
sequential rule order collapses to this disjunction. -/
def suspFlat (ra rb : String) : Prop :=
  ra = rb
  ∨ (strContains ra "Latin" = true ∧ strContains rb "Latin" = true)
  ∨ strContains ra "Emoticons" = true ∨ strContains rb "Emoticons" = true
  ∨ ((strContains ra "Latin" = true ∨ strContains rb "Latin" = true)
      ∧ (strContains ra "Combining" = true ∨ strContains rb "Combining" = true))
  ∨ commonWordOutsideSecondary ra rb
  ∨ (((ra = "Hiragana" ∨ ra = "Katakana") ∨ rb = "Hiragana" ∨ rb = "Katakana")
      ∧ (strContains ra "CJK" = true ∨ strContains rb "CJK" = true))
  ∨ ((ra = "Hiragana" ∨ ra = "Katakana") ∧ (rb = "Hiragana" ∨ rb = "Katakana"))
  ∨ ((strContains ra "Hangul" = true ∨ strContains rb "Hangul" = true)
      ∧ (strContains ra "CJK" = true ∨ strContains rb "CJK" = true
         ∨ ra = "Basic Latin" ∨ rb = "Basic Latin"))
  ∨ ((strContains ra "CJK" = true ∨ strContains rb "CJK" = true)
      ∧ (strContains ra "Punctuation" = true ∨ strContains ra "Forms" = true
         ∨ strContains rb "Punctuation" = true ∨ strContains rb "Forms" = true))

/-- One direction of the symmetry of `suspFlat`. -/
theorem suspFlat_swap (ra rb : String) (h : suspFlat ra rb) : suspFlat rb ra := by
  unfold suspFlat at h ⊢
  rcases h with h | h | h | h | h | h | h | h | h | h
  · exact Or.inl h.symm
  · exact Or.inr <| Or.inl ⟨h.2, h.1⟩
  · exact Or.inr <| Or.inr <| Or.inr <| Or.inl h
  · exact Or.inr <| Or.inr <| Or.inl h
  · exact Or.inr <| Or.inr <| Or.inr <| Or.inr <| Or.inl ⟨h.1.symm, h.2.symm⟩
  · exact Or.inr <| Or.inr <| Or.inr <| Or.inr <| Or.inr <| Or.inl
      ((commonWordOutsideSecondary_comm ra rb).mp h)
  · exact Or.inr <| Or.inr <| Or.inr <| Or.inr <| Or.inr <| Or.inr <| Or.inl
      ⟨h.1.symm, h.2.symm⟩
  · exact Or.inr <| Or.inr <| Or.inr <| Or.inr <| Or.inr <| Or.inr <| Or.inr <|
      Or.inl ⟨h.2, h.1⟩
  · refine Or.inr <| Or.inr <| Or.inr <| Or.inr <| Or.inr <| Or.inr <| Or.inr <|
      Or.inr <| Or.inl ⟨h.1.symm, ?_⟩
    rcases h.2 with x | x | x | x
    · exact Or.inr (Or.inl x)
    · exact Or.inl x
    · exact Or.inr (Or.inr (Or.inr x))
    · exact Or.inr (Or.inr (Or.inl x))
  · refine Or.inr <| Or.inr <| Or.inr <| Or.inr <| Or.inr <| Or.inr <| Or.inr <|
      Or.inr <| Or.inr ⟨h.1.symm, ?_⟩
    rcases h.2 with x | x | x | x
    · exact Or.inr (Or.inr (Or.inl x))
    · exact Or.inr (Or.inr (Or.inr x))
    · exact Or.inl x
    · exact Or.inr (Or.inl x)

/-- Symmetry of `suspFlat` in its two names. -/
theorem suspFlat_comm (ra rb : String) : suspFlat ra rb ↔ suspFlat rb ra :=
  ⟨suspFlat_swap ra rb, suspFlat_swap rb ra⟩

/-- Rule 4's boolean test coincides with `commonWordOutsideSecondary`. -/
theorem commonWord_bool_iff (ra rb : String) :
    ((splitWords ra).any (fun w =>
        (splitWords rb).contains w && !(unicodeSecondaryRangeKeyword.contains w)) = true)
      ↔ commonWordOutsideSecondary ra rb := by
  simp [commonWordOutsideSecondary, List.any_eq_true, List.elem_iff, List.contains]

/-- Characterization of `is_suspiciously_successive_range` on two present
names: it answers `false` exactly on the flat disjunction of its rules. -/
theorem susp_false_iff (ra rb : String) :
    is_suspiciously_successive_range (some ra) (some rb) = false ↔ suspFlat ra rb := by
  simp only [is_suspiciously_successive_range]
  split_ifs with h1 h2 h3 h4 h5 h6 h7 h8 h9
  · exact iff_of_true rfl (Or.inl h1)
  · simp only [Bool.and_eq_true] at h2
    exact iff_of_true rfl (Or.inr <| Or.inl h2)
  · simp only [Bool.or_eq_true] at h3
    refine iff_of_true rfl ?_
    rcases h3 with h | h
    · exact Or.inr <| Or.inr <| Or.inl h
    · exact Or.inr <| Or.inr <| Or.inr <| Or.inl h
  · simp only [Bool.and_eq_true, Bool.or_eq_true] at h4
    exact iff_of_true rfl (Or.inr <| Or.inr <| Or.inr <| Or.inr <| Or.inl h4)
  · rw [commonWord_bool_iff] at h5
    exact iff_of_true rfl
      (Or.inr <| Or.inr <| Or.inr <| Or.inr <| Or.inr <| Or.inl h5)
  · obtain ⟨hjp, hcjk⟩ := h6
    simp only [Bool.or_eq_true] at hcjk
    exact iff_of_true rfl
      (Or.inr <| Or.inr <| Or.inr <| Or.inr <| Or.inr <| Or.inr <| Or.inl
        ⟨hjp, hcjk⟩)
  · exact iff_of_true rfl
      (Or.inr <| Or.inr <| Or.inr <| Or.inr <| Or.inr <| Or.inr <| Or.inr <|
        Or.inl h7)
  · simp only [Bool.and_eq_true, Bool.or_eq_true, beq_iff_eq] at h8
    refine iff_of_true rfl
      (Or.inr <| Or.inr <| Or.inr <| Or.inr <| Or.inr <| Or.inr <| Or.inr <|
        Or.inr <| Or.inl ⟨h8.1, ?_⟩)
    rcases h8.2 with ((x | x) | x) | x
    · exact Or.inl x
    · exact Or.inr (Or.inl x)
    · exact Or.inr (Or.inr (Or.inl x))
    · exact Or.inr (Or.inr (Or.inr x))
  · simp only [Bool.and_eq_true, Bool.or_eq_true] at h9
    refine iff_of_true rfl
      (Or.inr <| Or.inr <| Or.inr <| Or.inr <| Or.inr <| Or.inr <| Or.inr <|
        Or.inr <| Or.inr ⟨h9.1, ?_⟩)
    rcases h9.2 with ((x | x) | x) | x
    · exact Or.inl x
    · exact Or.inr (Or.inl x)
    · exact Or.inr (Or.inr (Or.inl x))
    · exact Or.inr (Or.inr (Or.inr x))
  · refine iff_of_false (by simp) ?_
    rintro (h | h | h | h | h | h | h | h | h | h)
    · exact h1 h
    · exact h2 (by simp only [Bool.and_eq_true]; exact h)
    · exact h3 (by simp only [Bool.or_eq_true]; exact Or.inl h)
    · exact h3 (by simp only [Bool.or_eq_true]; exact Or.inr h)
    · exact h4 (by simp only [Bool.and_eq_true, Bool.or_eq_true]; exact h)
    · exact h5 ((commonWord_bool_iff ra rb).mpr h)
    · exact h6 ⟨h.1, by simp only [Bool.or_eq_true]; exact h.2⟩
    · exact h7 h
    · refine h8 (by
        simp only [Bool.and_eq_true, Bool.or_eq_true, beq_iff_eq]
        refine ⟨h.1, ?_⟩
        rcases h.2 with x | x | x | x
        · exact Or.inl (Or.inl (Or.inl x))
        · exact Or.inl (Or.inl (Or.inr x))
        · exact Or.inl (Or.inr x)
        · exact Or.inr x)
    · refine h9 (by
        simp only [Bool.and_eq_true, Bool.or_eq_true]
        refine ⟨h.1, ?_⟩
        rcases h.2 with x | x | x | x
        · exact Or.inl (Or.inl (Or.inl x))
        · exact Or.inl (Or.inl (Or.inr x))
        · exact Or.inl (Or.inr x)
        · exact Or.inr x)

/-- The succession rules exactly as the claim words them: each two-sided rule
("one contains X and the other Y", "paired with one containing") is read with
the two keywords on opposite names.  Defined only to compare the claim's
reading against the source function. -/
def claimedSuspicious : Option String → Option String → Bool
  | none, _ => true
  | some _, none => true
  | some ra, some rb =>
    if ra = rb then false
    else if strContains ra "Latin" && strContains rb "Latin" then false
    else if strContains ra "Emoticons" || strContains rb "Emoticons" then false
    else if (strContains ra "Latin" && strContains rb "Combining")
        || (strContains rb "Latin" && strContains ra "Combining") then false
    else if (splitWords ra).any (fun w =>
        (splitWords rb).contains w && !(unicodeSecondaryRangeKeyword.contains w)) then
      false
    else if ((ra = "Hiragana" ∨ ra = "Katakana") ∧ (rb = "Hiragana" ∨ rb = "Katakana"))
        ∨ ((ra = "Hiragana" ∨ ra = "Katakana") ∧ strContains rb "CJK" = true)
        ∨ ((rb = "Hiragana" ∨ rb = "Katakana") ∧ strContains ra "CJK" = true) then false
    else if (strContains ra "Hangul" && (strContains rb "CJK" || rb == "Basic Latin"))
        || (strContains rb "Hangul" && (strContains ra "CJK" || ra == "Basic Latin")) then
      false
    else if (strContains ra "CJK" && (strContains rb "Punctuation" || strContains rb "Forms"))
        || (strContains rb "CJK" && (strContains ra "Punctuation" || strContains ra "Forms")) then
      false
    else true

/-- Counterexample for C8: the pair ("CJK Symbols and Punctuation", "Armenian").
The claim's rules, read with the keywords on opposite names, leave this pair in
the "remaining" bucket (Armenian contains neither "Punctuation" nor "Forms"),
so the claim demands `true`; the source tests both keywords over either name
("CJK Symbols and Punctuation" alone supplies CJK and Punctuation) and returns
`false`. -/
theorem c8_counterexample :
    claimedSuspicious (some "CJK Symbols and Punctuation") (some "Armenian") = true
    ∧ is_suspiciously_successive_range
        (some "CJK Symbols and Punctuation") (some "Armenian") = false := by
  constructor
  · decide
  · decide

/-- C8 (amended): `is_suspiciously_successive_range` returns true when either
argument is absent, and on two present names returns true exactly when none of
the rules fires, with every keyword condition evaluated over the two names
jointly (either name may supply each keyword; a single name containing both
keywords of a rule also fires it). -/
theorem c8_succession_rules :
    (∀ a b : Option String, (a = none ∨ b = none) →
      is_suspiciously_successive_range a b = true)
    ∧ (∀ ra rb : String,
      is_suspiciously_successive_range (some ra) (some rb) = true ↔
        ¬ suspFlat ra rb) := by
  constructor
  · intro a b h
    rcases h with h | h
    · subst h
      rfl
    · subst h
      cases a <;> rfl
  · intro ra rb
    constructor
    · intro h hflat
      rw [← susp_false_iff ra rb] at hflat
      rw [h] at hflat
      cases hflat
    · intro h
      rcases hb : is_suspiciously_successive_range (some ra) (some rb) with _ | _
      · exact absurd ((susp_false_iff ra rb).mp hb) h
      · rfl

/-- Witness for C8: the none case at a concrete argument, via the theorem. -/
theorem c8_witness :
    is_suspiciously_successive_range none (some "Armenian") = true :=
  c8_succession_rules.1 none (some "Armenian") (Or.inl rfl)

/-- C9: `is_suspiciously_successive_range` is symmetric in its two arguments,
including the absent cases. -/
theorem c9_succession_symmetric (a b : Option String) :
    is_suspiciously_successive_range a b = is_suspiciously_successive_range b a := by
  cases a with
  | none =>
    cases b with
    | none => rfl
    | some rb => rfl
  | some ra =>
    cases b with
    | none => rfl
    | some rb =>
      rcases h : is_suspiciously_successive_range (some ra) (some rb) with _ | _
      · have hf := (susp_false_iff ra rb).mp h
        have := (susp_false_iff rb ra).mpr ((suspFlat_comm ra rb).mp hf)
        rw [this]
      · rcases h2 : is_suspiciously_successive_range (some rb) (some ra) with _ | _
        · have hf := (susp_false_iff rb ra).mp h2
          have := (susp_false_iff ra rb).mpr ((suspFlat_comm rb ra).mp hf)
          rw [this] at h
          cases h
        · rfl

/-! ### Claims C3-C6: the probing loop -/

/-- After appending a match, looking its encoding up succeeds: either the match
itself was appended, or it was merged into an earlier match of equal
fingerprint, which then carries the encoding among its aliases. -/
theorem getByEncoding_appendMatch_self (env : Env) (rs : List CharsetMatch)
    (m : CharsetMatch) :
    ∃ m', getByEncoding m.encoding (appendMatch env rs m) = some m'
      ∧ (m'.encoding = m.encoding ∨ m.encoding ∈ m'.aliases) := by
  induction rs with
  | nil =>
    exact ⟨m, by simp [appendMatch, getByEncoding], Or.inl rfl⟩
  | cons p t ih =>
    by_cases hfp : env.fingerprint p = env.fingerprint m
    · refine ⟨{ p with aliases := p.aliases ++ m.encoding :: m.aliases }, ?_, ?_⟩
      · simp [appendMatch, hfp, getByEncoding]
      · right
        simp
    · by_cases hp : p.encoding = m.encoding ∨ m.encoding ∈ p.aliases
      · exact ⟨p, by simp [appendMatch, hfp, getByEncoding, hp], hp⟩
      · obtain ⟨m', hm', hprop⟩ := ih
        exact ⟨m', by simp [appendMatch, hfp, getByEncoding, hp, hm'], hprop⟩

/-- C3: immediately after an encoding is accepted (its match appended), if the
mean mess ratio is strictly below 0.1 and the encoding is prioritized, or the
encoding is the BOM/SIG encoding, the accept phase finishes with a result set
holding exactly one match — the one registered for this encoding — and the
per-encoding loop, given any such early exit, returns it without probing any
further encoding (the remaining list is never consulted). -/
theorem c3_early_exit :
    (∀ (env : Env) (ctx : ProbeCtx) (st : PState) (enc : String) (mean : ℚ)
        (bomOrSig : Bool) (merged : List (String × ℚ)) (payload : Option String),
      ((mean < 1/10 ∧ ctx.prioritized.contains enc = true)
          ∨ enc = ctx.sigEncoding.getD "") →
      ∃ m, acceptStep env ctx st enc mean bomOrSig merged payload = .finish ⟨[m]⟩
        ∧ (m.encoding = enc ∨ enc ∈ m.aliases))
    ∧ (∀ (env : Env) (s : NormalizerSettings) (ctx : ProbeCtx) (st : PState)
        (enc : String) (rest : List String) (r : CharsetMatches),
      probeOne env s ctx st enc = .finish r →
      probeLoop env s ctx st (enc :: rest) = .inr r) := by
  constructor
  · intro env ctx st enc mean bomOrSig merged payload hcond
    obtain ⟨m', hm', hprop⟩ := getByEncoding_appendMatch_self env st.results
      ⟨ctx.bytes, enc, mean, bomOrSig, merged, payload, []⟩
    refine ⟨m', ?_, hprop⟩
    simp only [acceptStep, if_pos hcond]
    rw [hm']
    rfl
  · intro env s ctx st enc rest r h
    simp only [probeLoop, h]

/-- Witness for C3: a zero-mess prioritized encoding triggers the early exit
(part 1), and a concrete accepting run of `probeOne` on "ascii" short-circuits
the loop, ignoring the rest of the probe list (part 2). -/
theorem c3_witness :
    (∃ m, acceptStep testEnv (buildCtx testEnv [104] defaultSettings) initPState
        "utf-8" 0 false [] none = .finish ⟨[m]⟩
      ∧ (m.encoding = "utf-8" ∨ "utf-8" ∈ m.aliases))
    ∧ probeLoop testEnv (adjustSettings [104, 105] defaultSettings)
        (buildCtx testEnv [104, 105] (adjustSettings [104, 105] defaultSettings))
        initPState ["ascii", "utf-16le"]
      = .inr ⟨[⟨[104, 105], "ascii", 0, false, [], some "hi", []⟩]⟩ := by
  constructor
  · exact c3_early_exit.1 testEnv _ initPState "utf-8" 0 false [] none
      (Or.inl ⟨by norm_num, by decide⟩)
  · exact c3_early_exit.2 testEnv _ _ initPState "ascii" ["utf-16le"] _
      (by with_unfolding_all decide)

/-- C4 (amended): utf-16le and utf-16be are skipped by the per-encoding loop —
the state is returned unchanged, so nothing is probed and nothing is recorded
in results, failures or fallbacks — whenever no BOM/SIG matching that same
encoding was detected.  (The source has no such guard for utf-32le/utf-32be;
see the counterexample.) -/
theorem c4_utf16_requires_bom (env : Env) (s : NormalizerSettings)
    (ctx : ProbeCtx) (st : PState) (enc : String)
    (henc : enc = "utf-16le" ∨ enc = "utf-16be")
    (hsig : ctx.sigEncoding ≠ some enc) :
    probeOne env s ctx st enc = .cont st := by
  have hb : (ctx.sigEncoding == some enc) = false := by
    rw [beq_eq_false_iff_ne]
    exact hsig
  by_cases hi : s.includeEncodings ≠ [] ∧ ¬ s.includeEncodings.contains enc = true
  · simp only [probeOne]
    rw [if_pos hi]
  · by_cases he : s.excludeEncodings.contains enc = true
    · simp only [probeOne]
      rw [if_neg hi, if_pos he]
    · simp only [probeOne]
      rw [if_neg hi, if_neg he, if_pos ⟨hb, henc⟩]

/-- Counterexample for C4, utf-32 part: with "utf-32le" in the probe list, no
BOM detected, and the external decoder not recognising the label (as the
crate's WHATWG resolver does not), the per-encoding loop does probe it and
records it as a hard failure, contradicting "never probed, never added to
... failures" for utf-32le without a BOM. -/
theorem c4_counterexample :
    identify_sig_or_bom envUtf32 [255] = none
    ∧ detectState envUtf32 [255] defaultSettings
        = .inl { initPState with hard := ["utf-32le"] } := by
  constructor
  · rfl
  · with_unfolding_all decide

/-- Witness for C4: with no BOM in sight, probing "utf-16le" leaves the state
untouched. -/
theorem c4_witness :
    probeOne testEnv defaultSettings (buildCtx testEnv [255] defaultSettings)
      initPState "utf-16le" = .cont initPState :=
  c4_utf16_requires_bom testEnv defaultSettings
    (buildCtx testEnv [255] defaultSettings) initPState "utf-16le"
    (Or.inl rfl) (by decide)

/-- C5: when the per-encoding loop ends with an empty result set, the
finalization consults the fallbacks in order — the specified hint first;
otherwise the utf-8 fallback whenever it is distinct from the ascii one (no
ascii fallback, or differing fingerprints); otherwise the ascii fallback —
and returns a set holding exactly that single match; with no fallback recorded
the returned set is empty. -/
theorem c5_fallback_order (env : Env) (st : PState) (hres : st.results = []) :
    (∀ m, st.fbSpecified = some m → finalize env st = ⟨[m]⟩)
    ∧ (∀ m, st.fbSpecified = none → st.fbU8 = some m →
        (st.fbAscii = none
          ∨ ∃ a, st.fbAscii = some a ∧ env.fingerprint m ≠ env.fingerprint a) →
        finalize env st = ⟨[m]⟩)
    ∧ (∀ a, st.fbSpecified = none → st.fbAscii = some a →
        (st.fbU8 = none
          ∨ ∃ m, st.fbU8 = some m ∧ env.fingerprint m = env.fingerprint a) →
        finalize env st = ⟨[a]⟩)
    ∧ (st.fbSpecified = none → st.fbU8 = none → st.fbAscii = none →
        finalize env st = ⟨[]⟩) := by
  obtain ⟨hard, soft, fbA, fbU, fbS, res⟩ := st
  simp only at hres
  subst hres
  refine ⟨?_, ?_, ?_, ?_⟩
  · intro m hm
    simp only at hm
    subst hm
    simp [finalize, selectFallback, appendMatch]
  · intro m hsp hu ha
    simp only at hsp hu
    subst hsp
    subst hu
    rcases ha with ha | ⟨a, ha, hfp⟩
    · simp only at ha
      subst ha
      simp [finalize, selectFallback, appendMatch]
    · simp only at ha
      subst ha
      simp [finalize, selectFallback, appendMatch, hfp]
  · intro a hsp hu ha
    simp only at hsp hu
    subst hsp
    subst hu
    rcases ha with hu8 | ⟨m, hm, hfp⟩
    · simp only at hu8
      subst hu8
      simp [finalize, selectFallback, appendMatch]
    · simp only at hm
      subst hm
      simp [finalize, selectFallback, appendMatch, hfp]
  · intro hsp hu ha
    simp only at hsp hu ha
    subst hsp
    subst hu
    subst ha
    simp [finalize, selectFallback]

/-- Witness for C5: a loop state holding only a utf-8 fallback finalizes to
exactly that single match. -/
theorem c5_witness :
    finalize testEnv
      { initPState with fbU8 := some ⟨[233], "utf-8", 1/5, false, [], none, []⟩ }
      = ⟨[⟨[233], "utf-8", 1/5, false, [], none, []⟩]⟩ :=
  (c5_fallback_order testEnv
      { initPState with fbU8 := some ⟨[233], "utf-8", 1/5, false, [], none, []⟩ }
      rfl).2.1 ⟨[233], "utf-8", 1/5, false, [], none, []⟩ rfl rfl (Or.inl rfl)

/-- C6 (amended): when an encoding soft-fails, the soft-failure branch records
it in `tested_but_soft_failure`; and if fallback is enabled, the encoding is
prioritized AND no chunk hard-failed lazily during the chunk loop
(`lazy_str_hard_failure` is false — a condition the original claim omits), a
fallback entry carrying the threshold as its mess ratio is stored in the slot
selected by the encoding: the specified slot when it equals the declaratively
specified encoding, the ascii slot when it is "ascii", the utf-8 slot
otherwise. -/
theorem c6_soft_fail_fallback (s : NormalizerSettings) (ctx : ProbeCtx)
    (st : PState) (enc : String) (payload : Option String)
    (hfb : s.enableFallback = true)
    (hprio : ctx.prioritized.contains enc = true) :
    (softFailRecord s ctx st enc false payload).soft = st.soft ++ [enc]
    ∧ (enc = ctx.specifiedEncoding →
        (softFailRecord s ctx st enc false payload).fbSpecified
          = some ⟨ctx.bytes, enc, s.threshold, false, [], payload, []⟩)
    ∧ (enc ≠ ctx.specifiedEncoding → enc = "ascii" →
        (softFailRecord s ctx st enc false payload).fbAscii
          = some ⟨ctx.bytes, enc, s.threshold, false, [], payload, []⟩)
    ∧ (enc ≠ ctx.specifiedEncoding → enc ≠ "ascii" →
        (softFailRecord s ctx st enc false payload).fbU8
          = some ⟨ctx.bytes, enc, s.threshold, false, [], payload, []⟩) := by
  have hmem : enc ∈ ctx.prioritized := by simpa using hprio
  refine ⟨?_, ?_, ?_, ?_⟩
  · simp [softFailRecord, hfb, hprio, apply_ite PState.soft]
  · intro hspec
    have hs : (enc == ctx.specifiedEncoding) = true := by
      rw [beq_iff_eq]
      exact hspec
    simp [softFailRecord, hfb, hprio, hmem, hs]
  · intro hspec hascii
    have hs : (enc == ctx.specifiedEncoding) = false := by
      rw [beq_eq_false_iff_ne]
      exact hspec
    have ha : (enc == "ascii") = true := by
      rw [beq_iff_eq]
      exact hascii
    simp [softFailRecord, hfb, hprio, hmem, hs, ha]
  · intro hspec hascii
    have hs : (enc == ctx.specifiedEncoding) = false := by
      rw [beq_eq_false_iff_ne]
      exact hspec
    have ha : (enc == "ascii") = false := by
      rw [beq_eq_false_iff_ne]
      exact hascii
    simp [softFailRecord, hfb, hprio, hmem, hs, ha]

/-- Witness for C6: recording a soft failure of "ascii" (no lazy hard failure)
in the context of a concrete run fills the ascii fallback slot. -/
theorem c6_witness :
    (softFailRecord defaultSettings
        (buildCtx envLatin [233] (adjustSettings [233] defaultSettings))
        initPState "ascii" false none).fbAscii
      = some ⟨[233], "ascii", defaultSettings.threshold, false, [], none, []⟩ :=
  (c6_soft_fail_fallback defaultSettings
      (buildCtx envLatin [233] (adjustSettings [233] defaultSettings))
      initPState "ascii" none rfl (by decide)).2.2.1 (by decide) rfl

/-- Counterexample for C6: on input `[233]` with the default settings, "ascii"
soft-fails (the chunk loop hard-fails lazily on the non-ASCII decoded chunk,
driving `early_stop_count` to the give-up bound), fallback is enabled and
"ascii" is prioritized — yet no fallback slot is filled, because the source
additionally requires `!lazy_str_hard_failure`, which the claim omits. -/
theorem c6_counterexample :
    defaultSettings.enableFallback = true
    ∧ (buildCtx envLatin [233]
        (adjustSettings [233] defaultSettings)).prioritized.contains "ascii" = true
    ∧ detectState envLatin [233] defaultSettings
        = .inl { initPState with soft := ["ascii"] } := by
  refine ⟨rfl, by decide, ?_⟩
  with_unfolding_all decide
